import Mathlib

/-!
Verification of the minilb hostname-resolution engine (internal/dns/dns.go
and internal/k8s of github.com/vaskozl/minilb).

Go strings are modelled as lists of Unicode code points (`GoStr`), so ASCII
case mapping and whitespace trimming become plain arithmetic on `Nat`.
Fallible Go functions returning `(T, error)` are modelled as `Except String T`;
`nil` listers are `Option` fields; the Kubernetes API reads consumed by the
code (already-listed objects) are the model's inputs.
-/

/-- A Go string as its sequence of code points (runes). -/
abbrev GoStr := List Nat

/-- Convenience: a Lean string literal as a `GoStr`. -/
def gs (s : String) : GoStr := s.toList.map Char.toNat

/-- Go `unicode.IsSpace` on the Latin-1 range (the only characters relevant to
hostnames): space, tab, newline, vertical tab, form feed, carriage return,
NEL (U+0085) and NBSP (U+00A0). -/
def goIsSpace (r : Nat) : Bool :=
  decide (r = 32 ∨ r = 9 ∨ r = 10 ∨ r = 11 ∨ r = 12 ∨ r = 13 ∨ r = 133 ∨ r = 160)

/-- Go `strings.ToLower` on one ASCII code point (hostnames are ASCII). -/
def goToLower (r : Nat) : Nat := if 65 ≤ r ∧ r ≤ 90 then r + 32 else r

/-- Go `strings.ToLower` over the string. -/
def goToLowerStr (s : GoStr) : GoStr := s.map goToLower

/-- Left half of Go `strings.TrimSpace`. -/
def trimLeftSpace (s : GoStr) : GoStr := s.dropWhile goIsSpace

/-- Right half of Go `strings.TrimSpace`. -/
def trimRightSpace (s : GoStr) : GoStr := (s.reverse.dropWhile goIsSpace).reverse

/-- Go `strings.TrimSpace`. -/
def goTrimSpace (s : GoStr) : GoStr := trimRightSpace (trimLeftSpace s)

/-- Go `strings.HasSuffix`. -/
def goHasSuffix (s suf : GoStr) : Bool := suf.isSuffixOf s

/-- Go `strings.TrimSuffix`: removes one occurrence of `suf` when present. -/
def goTrimSuffix (s suf : GoStr) : GoStr :=
  if suf.isSuffixOf s then s.take (s.length - suf.length) else s

/-- Go `strings.HasPrefix(candidate, "*.")` as used by `hostnameMatches`
(`42` is `*`, `46` is `.`). -/
def goStartsWithStarDot (s : GoStr) : Bool := List.isPrefixOf [42, 46] s

/-- Go `strings.TrimPrefix(candidate, "*.")` as used by `hostnameMatches`. -/
def stripStarDot (s : GoStr) : GoStr :=
  if List.isPrefixOf [42, 46] s then s.drop 2 else s

/-- `canonicalHostname` (dns.go): trim surrounding space, trim one trailing
dot, lower-case. -/
def canonicalHostname (host : GoStr) : GoStr :=
  goToLowerStr (goTrimSuffix (goTrimSpace host) [46])

/-- `hostnameMatches` (dns.go): canonicalize both, refuse empties, exact
equality, else the `*.` wildcard suffix rule. -/
def hostnameMatches (candidate query : GoStr) : Bool :=
  let c := canonicalHostname candidate
  let q := canonicalHostname query
  if c = [] ∨ q = [] then false
  else if c = q then true
  else if goStartsWithStarDot c then
    let suffix := stripStarDot c
    decide (suffix ≠ []) && decide (suffix.length < q.length) && goHasSuffix q suffix
  else false

/-- `containsMatchingHostname` (dns.go). -/
def containsMatchingHostname (hosts : List GoStr) (query : GoStr) : Bool :=
  if hosts = [] then false
  else hosts.any (fun host => hostnameMatches host query)

/-- `hostnamesToStrings` (dns.go): drops empty hostnames. -/
def hostnamesToStrings (hosts : List GoStr) : List GoStr :=
  if hosts = [] then [] else hosts.filter (fun h => !h.isEmpty)

/-- `v1.LoadBalancerIngress`: one load-balancer status entry. -/
structure LoadBalancerIngress where
  ip : GoStr
  hostname : GoStr
deriving DecidableEq

/-- One rule of an `Ingress` spec: only its `Host` is consulted. -/
structure IngressRule where
  host : GoStr
deriving DecidableEq

/-- A `networking/v1.Ingress` as read by `resolveIngressHostname`. -/
structure Ingress where
  rules : List IngressRule
  lbIngress : List LoadBalancerIngress
deriving DecidableEq

/-- A Gateway-API `ParentReference` (kind, namespace, name). -/
structure ParentRef where
  kind : Option GoStr
  ns : Option GoStr
  name : GoStr
deriving DecidableEq

/-- A Gateway object: its namespace, name and status address values. -/
structure Gateway where
  ns : GoStr
  name : GoStr
  addresses : List GoStr
deriving DecidableEq

/-- An HTTP/TLS/GRPC route: namespace, declared hostnames, parent refs. -/
structure Route where
  ns : GoStr
  hostnames : List GoStr
  parentRefs : List ParentRef
deriving DecidableEq

/-- `discoveryv1.EndpointConditions` (`nil` pointer = `none`). -/
structure EndpointConditions where
  ready : Option Bool
  serving : Option Bool
  terminating : Option Bool
deriving DecidableEq

/-- `discoveryv1.Endpoint`. -/
structure Endpoint where
  addresses : List GoStr
  conditions : EndpointConditions
deriving DecidableEq

/-- `discoveryv1.EndpointPort` (pointer fields = `Option`). -/
structure EndpointPort where
  name : Option GoStr
  protocol : Option GoStr
  port : Option Int
  appProtocol : Option GoStr
deriving DecidableEq

/-- `discoveryv1.AddressType`. -/
inductive AddressType where
  | IPv4
  | IPv6
  | FQDN
deriving DecidableEq

/-- A `discoveryv1.EndpointSlice` (only the fields `GetEndpoints` reads). -/
structure EndpointSlice where
  addressType : AddressType
  endpoints : List Endpoint
  ports : List EndpointPort
deriving DecidableEq

/-- `v1.EndpointPort` (zero values where the discovery pointer is `nil`). -/
structure V1EndpointPort where
  name : GoStr
  protocol : GoStr
  port : Int
  appProtocol : Option GoStr
deriving DecidableEq

/-- `v1.EndpointAddress`: only `IP` is populated by `GetEndpoints`. -/
structure EndpointAddress where
  ip : GoStr
deriving DecidableEq

/-- `v1.EndpointSubset`. -/
structure EndpointSubset where
  addresses : List EndpointAddress
  ports : List V1EndpointPort
deriving DecidableEq

/-- The `v1.Endpoints` object `GetEndpoints` assembles. -/
structure Endpoints where
  name : GoStr
  ns : GoStr
  subsets : List EndpointSubset
deriving DecidableEq

/-- A `v1.Service` as touched by the controller (`ns` is its namespace,
`lbIngressStatus` is `Status.LoadBalancer.Ingress`). -/
structure Service where
  name : GoStr
  ns : GoStr
  svcType : GoStr
  loadBalancerClass : Option GoStr
  annotations : List (GoStr × GoStr)
  lbIngressStatus : List LoadBalancerIngress
deriving DecidableEq

/-- The package-level k8s state: the hostname cache (`serviceMap`), the five
listers (`none` models a `nil` lister, for graceful degradation), and the
endpoint-slice listing keyed by the `kubernetes.io/service-name` label and
namespace, i.e. the arguments of the `List` call in `GetEndpoints`. -/
structure K8sState where
  serviceMap : List (GoStr × GoStr)
  ingressLister : Option (List Ingress)
  httpRouteLister : Option (List Route)
  tlsRouteLister : Option (List Route)
  grpcRouteLister : Option (List Route)
  gatewayLister : Option (List Gateway)
  endpointSlices : GoStr → GoStr → List EndpointSlice

/-- Go map read `serviceMap[canonical]`: first binding for the key (inserts
prepend, so the first hit is the live one). -/
def lookupGo (m : List (GoStr × GoStr)) (k : GoStr) : Option GoStr :=
  match m with
  | [] => none
  | p :: rest => if p.1 = k then some p.2 else lookupGo rest k

/-- `gatewayAddressForParentRefs` (dns.go): first Gateway-kind parent whose
gateway resolves and advertises a non-empty address. -/
def gatewayAddressForParentRefs (st : K8sState) (routeNs : GoStr)
    (parentRefs : List ParentRef) : GoStr :=
  match st.gatewayLister with
  | none => []
  | some gws =>
    (parentRefs.findSome? fun parentRef =>
      if parentRef.kind ≠ none ∧ parentRef.kind ≠ some (gs "Gateway") then none
      else
        let gwNs := match parentRef.ns with
          | some nsv => if nsv ≠ [] then nsv else routeNs
          | none => routeNs
        match gws.find? (fun g => g.ns == gwNs && g.name == parentRef.name) with
        | none => none
        | some gateway => gateway.addresses.find? (fun a => !a.isEmpty)).getD []

/-- The value one ingress yields for a query in `resolveIngressHostname`:
first matching rule with a status entry, preferring hostname over IP. -/
def ingressRuleResult (ingress : Ingress) (hostname : GoStr) : Option GoStr :=
  ingress.rules.findSome? fun rule =>
    if hostnameMatches rule.host hostname then
      match ingress.lbIngress with
      | [] => none
      | lb :: _ =>
        if lb.hostname ≠ [] then some lb.hostname
        else if lb.ip ≠ [] then some lb.ip
        else none
    else none

/-- `resolveIngressHostname` (dns.go); `[]` is Go's `""` (no match). -/
def resolveIngressHostname (st : K8sState) (hostname : GoStr) : GoStr :=
  match st.ingressLister with
  | none => []
  | some ingresses =>
    (ingresses.findSome? fun ingress => ingressRuleResult ingress hostname).getD []

/-- `resolveHTTPRouteHostname` (dns.go). -/
def resolveHTTPRouteHostname (st : K8sState) (hostname : GoStr) : GoStr :=
  match st.httpRouteLister with
  | none => []
  | some routes =>
    (routes.findSome? fun route =>
      if containsMatchingHostname (hostnamesToStrings route.hostnames) hostname then
        let addr := gatewayAddressForParentRefs st route.ns route.parentRefs
        if addr ≠ [] then some addr else none
      else none).getD []

/-- `resolveTLSRouteHostname` (dns.go). -/
def resolveTLSRouteHostname (st : K8sState) (hostname : GoStr) : GoStr :=
  match st.tlsRouteLister with
  | none => []
  | some routes =>
    (routes.findSome? fun route =>
      if containsMatchingHostname (hostnamesToStrings route.hostnames) hostname then
        let addr := gatewayAddressForParentRefs st route.ns route.parentRefs
        if addr ≠ [] then some addr else none
      else none).getD []

/-- `resolveGRPCRouteHostname` (dns.go): additionally skips routes with no
declared hostname. -/
def resolveGRPCRouteHostname (st : K8sState) (hostname : GoStr) : GoStr :=
  match st.grpcRouteLister with
  | none => []
  | some routes =>
    (routes.findSome? fun route =>
      if route.hostnames = [] then none
      else if containsMatchingHostname (hostnamesToStrings route.hostnames) hostname then
        let addr := gatewayAddressForParentRefs st route.ns route.parentRefs
        if addr ≠ [] then some addr else none
      else none).getD []

/-- `GetAddressForHostname` (dns.go): serviceMap first, then ingresses, then
HTTP, TLS and GRPC routes, else "hostname not found". -/
def GetAddressForHostname (st : K8sState) (hostname : GoStr) : Except String GoStr :=
  let canonical := canonicalHostname hostname
  if canonical = [] then .error "invalid hostname"
  else
    match lookupGo st.serviceMap canonical with
    | some svcHost => .ok svcHost
    | none =>
      let a1 := resolveIngressHostname st canonical
      if a1 ≠ [] then .ok a1
      else
        let a2 := resolveHTTPRouteHostname st canonical
        if a2 ≠ [] then .ok a2
        else
          let a3 := resolveTLSRouteHostname st canonical
          if a3 ≠ [] then .ok a3
          else
            let a4 := resolveGRPCRouteHostname st canonical
            if a4 ≠ [] then .ok a4
            else .error "hostname not found"

/-- `convertEndpointPorts` (dns.go): protocol defaults to TCP, pointer fields
default to zero values. -/
def convertEndpointPorts (ports : List EndpointPort) : List V1EndpointPort :=
  if ports = [] then []
  else ports.map fun port =>
    { name := port.name.getD []
      protocol := port.protocol.getD (gs "TCP")
      port := port.port.getD 0
      appProtocol := port.appProtocol }

/-- `isReadyEndpoint` (dns.go): no addresses, `ready=false`, `serving=false`
or `terminating=true` each exclude; unset conditions default to ready. -/
def isReadyEndpoint (endpoint : Endpoint) : Bool :=
  if endpoint.addresses = [] then false
  else if endpoint.conditions.ready = some false then false
  else if endpoint.conditions.serving = some false then false
  else if endpoint.conditions.terminating = some true then false
  else true

/-- The subset list `GetEndpoints` accumulates: one subset per IPv4 slice with
at least one address of a ready endpoint. -/
def collectSubsets (slices : List EndpointSlice) : List EndpointSubset :=
  slices.filterMap fun slice =>
    if slice.addressType ≠ AddressType.IPv4 then none
    else
      let addrs := ((slice.endpoints.filter isReadyEndpoint).flatMap
        Endpoint.addresses).map fun a => { ip := a }
      if addrs = [] then none
      else some { addresses := addrs, ports := convertEndpointPorts slice.ports }

/-- `GetEndpoints` (dns.go): aggregates the service's endpoint slices and
fails when no subset survives. -/
def GetEndpoints (st : K8sState) (serviceName ns : GoStr) : Except String Endpoints :=
  let subsets := collectSubsets (st.endpointSlices serviceName ns)
  if subsets = [] then .error "no ready IPv4 endpoints found"
  else .ok { name := serviceName, ns := ns, subsets := subsets }

/-- `updateServiceStatus` (dns.go): returns the service as left by the call
and whether the `UpdateStatus` API write was performed. The write happens
unless the status is already exactly one ingress entry with empty IP and
hostname `lbDNS`, mirroring the short-circuit condition in the source. -/
def updateServiceStatus (lbDNS : GoStr) (svc : Service) : Service × Bool :=
  let conforming : Bool :=
    match svc.lbIngressStatus with
    | [ing] => ing.ip == [] && ing.hostname == lbDNS
    | _ => false
  if conforming then (svc, false)
  else ({ svc with lbIngressStatus := [{ ip := [], hostname := lbDNS }] }, true)

/-- One entry of a DNS question section. -/
structure DNSQuestion where
  name : GoStr
  qtype : Nat
deriving DecidableEq

/-- `dns.TypeA`. -/
def typeA : Nat := 1

/-- `dns.ClassINET`. -/
def classINET : Nat := 1

/-- An `A` resource record as `handleDNSRequest` builds it (`ip` is the
address string handed to `net.ParseIP`). -/
structure ARecord where
  name : GoStr
  rrtype : Nat
  rrclass : Nat
  ttl : Nat
  ip : GoStr
deriving DecidableEq

/-- A DNS message: the fields the handler reads and writes. -/
structure DNSMsg where
  question : List DNSQuestion
  answer : List ARecord
  authoritative : Bool
deriving DecidableEq

/-- The DNS server configuration consumed by the handler. -/
structure Config where
  domain : GoStr
  ttl : Nat

/-- One Go swap `a[i], a[j] = a[j], a[i]` on a list, identity when an index is
out of range (never the case in `shuffleDNSAnswers`). -/
def listSwap (l : List ARecord) (i j : Nat) : List ARecord :=
  match l[i]?, l[j]? with
  | some x, some y => (l.set i y).set j x
  | _, _ => l

/-- `shuffleDNSAnswers` (dns.go): for each `i` ascending, swap position `i`
with position `rand.Intn(i+1)`; the random source is modelled as an arbitrary
function, reduced mod `i+1` exactly as `Intn` bounds its result. -/
def shuffleDNSAnswers (rnd : Nat → Nat) (answers : List ARecord) : List ARecord :=
  (List.range answers.length).foldl (fun acc i => listSwap acc i (rnd i % (i + 1))) answers

/-- Go `strings.SplitN(s, ".", 2)`. -/
def goSplitN2Dot (s : GoStr) : List GoStr :=
  let pre := s.takeWhile (fun c => c != 46)
  match s.dropWhile (fun c => c != 46) with
  | [] => [pre]
  | _ :: tail => [pre, tail]

/-- `handleDNSRequest` (dns.go). `none` models the Go panic: the handler
indexes `r.Question[0]` before checking that a question is present, so a
message with an empty question section crashes instead of being answered.
Every other path returns the reply message passed to `w.WriteMsg`. -/
def handleDNSRequest (cfg : Config) (st : K8sState) (rnd : Nat → Nat)
    (r : DNSMsg) : Option DNSMsg :=
  match r.question with
  | [] => none
  | q :: _ =>
    let m : DNSMsg := { question := r.question, answer := [], authoritative := true }
    if q.qtype = typeA then
      let suffix := 46 :: cfg.domain
      let name := goTrimSuffix q.name [46]
      let resolved : Except String GoStr :=
        if goHasSuffix name suffix then .ok name
        else GetAddressForHostname st name
      match resolved with
      | .error _ => some m
      | .ok name1 =>
        match goSplitN2Dot (goTrimSuffix name1 suffix) with
        | [serviceName, nsName] =>
          match GetEndpoints st serviceName nsName with
          | .error _ => some m
          | .ok endpoints =>
            let answers := endpoints.subsets.flatMap fun subset =>
              subset.addresses.map fun address =>
                { name := q.name, rrtype := typeA, rrclass := classINET
                  ttl := cfg.ttl, ip := address.ip }
            some { m with answer := shuffleDNSAnswers rnd answers }
        | _ => some m
    else some m

/-! ## Shared helper lemmas -/

theorem lookupGo_key_mem {m : List (GoStr × GoStr)} {k v : GoStr}
    (h : lookupGo m k = some v) : ∃ p ∈ m, p.1 = k := by
  induction m with
  | nil => simp [lookupGo] at h
  | cons p rest ih =>
    by_cases hk : p.1 = k
    · exact ⟨p, List.mem_cons_self p rest, hk⟩
    · simp only [lookupGo, if_neg hk] at h
      obtain ⟨q, hq, hqk⟩ := ih h
      exact ⟨q, List.mem_cons_of_mem p hq, hqk⟩

theorem findSome?_middle_none {α β : Type} (f : α → Option β) (pre post : List α)
    (r : α) (hr : f r = none) :
    ((pre ++ r :: post).findSome? f) = ((pre ++ post).findSome? f) := by
  induction pre with
  | nil => simp [List.findSome?_cons, hr]
  | cons a pre ih =>
    simp only [List.cons_append, List.findSome?_cons]
    cases f a <;> simp [ih]

/-! ## Claim theorems -/

/-- C4: an endpoint of an IPv4 slice is dropped when `ready=false`, when
`terminating=true` (even if ready), or when `serving=false`; it is kept when
it has an address and each condition is unset or ready/serving/not
terminating; and every address aggregated into a subset comes from a ready
endpoint of an IPv4 slice. -/
theorem isReadyEndpoint_filtering (e : Endpoint) :
    (e.conditions.ready = some false → isReadyEndpoint e = false)
  ∧ (e.conditions.terminating = some true → isReadyEndpoint e = false)
  ∧ (e.conditions.serving = some false → isReadyEndpoint e = false)
  ∧ (e.addresses ≠ [] →
      (e.conditions.ready = none ∨ e.conditions.ready = some true) →
      (e.conditions.serving = none ∨ e.conditions.serving = some true) →
      (e.conditions.terminating = none ∨ e.conditions.terminating = some false) →
      isReadyEndpoint e = true)
  ∧ (∀ slices subset, subset ∈ collectSubsets slices → ∀ a ∈ subset.addresses,
      ∃ slice ∈ slices, slice.addressType = AddressType.IPv4 ∧
        ∃ ep ∈ slice.endpoints, isReadyEndpoint ep = true ∧ a.ip ∈ ep.addresses) := by
  refine ⟨?_, ?_, ?_, ?_, ?_⟩
  · intro h; unfold isReadyEndpoint; split_ifs with h1 <;> simp_all
  · intro h; unfold isReadyEndpoint; split_ifs <;> simp_all
  · intro h; unfold isReadyEndpoint; split_ifs <;> simp_all
  · intro h1 h2 h3 h4; unfold isReadyEndpoint; split_ifs <;> simp_all
  · intro slices subset hmem a ha
    simp only [collectSubsets, List.mem_filterMap] at hmem
    obtain ⟨slice, hs, hf⟩ := hmem
    by_cases hip : slice.addressType = AddressType.IPv4
    · simp only [hip, ne_eq, not_true_eq_false, if_false, if_neg] at hf
      split at hf
      · exact absurd hf (by simp)
      · rename_i hne
        obtain rfl : subset = _ := (Option.some_inj.mp hf).symm
        simp only [List.mem_map] at ha
        obtain ⟨ipv, hipv, rfl⟩ := ha
        simp only [List.mem_flatMap, List.mem_filter] at hipv
        obtain ⟨ep, ⟨hep, hready⟩, hin⟩ := hipv
        exact ⟨slice, hs, hip, ep, hep, hready, hin⟩
    · simp [hip] at hf

/-- The canonical hostname the reconciler assigns in the examples below. -/
def exLbDNS : GoStr := gs "mosquitto.automation.minilb"

/-- A LoadBalancer service whose status already conforms. -/
def exConformingSvc : Service :=
  { name := gs "mosquitto", ns := gs "automation", svcType := gs "LoadBalancer"
    loadBalancerClass := some (gs "minilb"), annotations := []
    lbIngressStatus := [{ ip := [], hostname := exLbDNS }] }

/-- C5 counterexample: on a LoadBalancer service whose status already is the
single conforming ingress entry, two successive `updateServiceStatus` calls
with no intervening change perform zero API writes, not exactly one. -/
theorem updateServiceStatus_two_calls_zero_writes_cex :
    ((updateServiceStatus exLbDNS exConformingSvc).2 = false) ∧
    ((updateServiceStatus exLbDNS (updateServiceStatus exLbDNS exConformingSvc).1).2 = false) := by
  decide

/-- C5 amended: two successive `updateServiceStatus` calls perform at most
one API write: the first call writes iff the current status is not exactly
one ingress entry with empty IP and hostname `lbDNS`, any call leaves the
status as exactly that entry, and the second call never writes. -/
theorem updateServiceStatus_idempotent (lbDNS : GoStr) (svc : Service) :
    ((updateServiceStatus lbDNS svc).2 = true ↔
        svc.lbIngressStatus ≠ [{ ip := [], hostname := lbDNS }])
  ∧ (updateServiceStatus lbDNS svc).1.lbIngressStatus = [{ ip := [], hostname := lbDNS }]
  ∧ (updateServiceStatus lbDNS (updateServiceStatus lbDNS svc).1).2 = false := by
  obtain ⟨nm, nsv, ty, lbc, ann, status⟩ := svc
  match status with
  | [] => simp [updateServiceStatus]
  | [ing] =>
    obtain ⟨ipv, hostv⟩ := ing
    by_cases h1 : ipv = ([] : GoStr) <;> by_cases h2 : hostv = lbDNS <;>
      simp_all [updateServiceStatus]
  | a :: b :: t => simp [updateServiceStatus]

theorem collectSubsets_eq_nil_iff (slices : List EndpointSlice) :
    collectSubsets slices = [] ↔
      ∀ slice ∈ slices, slice.addressType = AddressType.IPv4 →
        (slice.endpoints.filter isReadyEndpoint).flatMap Endpoint.addresses = [] := by
  unfold collectSubsets
  rw [List.filterMap_eq_nil_iff]
  constructor
  · intro h slice hs hip
    have := h slice hs
    simp only [hip, ne_eq, not_true_eq_false, if_false] at this
    split at this
    · rename_i haddrs
      exact List.map_eq_nil_iff.mp haddrs
    · exact absurd this (by simp)
  · intro h slice hs
    by_cases hip : slice.addressType = AddressType.IPv4
    · simp [hip, h slice hs hip]
    · simp [hip]

/-- C3: `GetEndpoints` fails with "no ready IPv4 endpoints found" exactly
when, after keeping only IPv4 slices, ready endpoints and non-empty address
sets, nothing survives; a successful result never has an empty subset
list. -/
theorem GetEndpoints_empty_is_failure (st : K8sState) (serviceName ns : GoStr) :
    (GetEndpoints st serviceName ns = .error "no ready IPv4 endpoints found" ↔
      ∀ slice ∈ st.endpointSlices serviceName ns,
        slice.addressType = AddressType.IPv4 →
          (slice.endpoints.filter isReadyEndpoint).flatMap Endpoint.addresses = [])
  ∧ (∀ e, GetEndpoints st serviceName ns = .ok e → e.subsets ≠ []) := by
  by_cases h : collectSubsets (st.endpointSlices serviceName ns) = []
  · refine ⟨?_, ?_⟩
    · rw [← collectSubsets_eq_nil_iff]
      simp [GetEndpoints, h]
    · intro e he
      simp [GetEndpoints, h] at he
  · refine ⟨?_, ?_⟩
    · rw [← collectSubsets_eq_nil_iff]
      simp [GetEndpoints, h]
    · intro e he
      simp only [GetEndpoints, if_neg h, Except.ok.injEq] at he
      subst he
      exact h

/-- C10: a hostname-less HTTP or TLS route can never match:
`containsMatchingHostname` is false on an empty list, and inserting a route
with no hostnames anywhere in the HTTP, TLS (or GRPC) route list leaves the
resolver's result unchanged. -/
theorem zero_hostname_routes_skipped :
    (∀ query : GoStr, containsMatchingHostname [] query = false)
  ∧ (∀ (st : K8sState) (query : GoStr) (pre post : List Route) (r : Route),
      r.hostnames = [] →
      resolveHTTPRouteHostname { st with httpRouteLister := some (pre ++ r :: post) } query
        = resolveHTTPRouteHostname { st with httpRouteLister := some (pre ++ post) } query)
  ∧ (∀ (st : K8sState) (query : GoStr) (pre post : List Route) (r : Route),
      r.hostnames = [] →
      resolveTLSRouteHostname { st with tlsRouteLister := some (pre ++ r :: post) } query
        = resolveTLSRouteHostname { st with tlsRouteLister := some (pre ++ post) } query)
  ∧ (∀ (st : K8sState) (query : GoStr) (pre post : List Route) (r : Route),
      r.hostnames = [] →
      resolveGRPCRouteHostname { st with grpcRouteLister := some (pre ++ r :: post) } query
        = resolveGRPCRouteHostname { st with grpcRouteLister := some (pre ++ post) } query) := by
  refine ⟨fun query => rfl, ?_, ?_, ?_⟩
  · intro st query pre post r hr
    show (((pre ++ r :: post).findSome? _).getD []) = (((pre ++ post).findSome? _).getD [])
    rw [findSome?_middle_none]
    · rfl
    · simp [hr, containsMatchingHostname, hostnamesToStrings]
  · intro st query pre post r hr
    show (((pre ++ r :: post).findSome? _).getD []) = (((pre ++ post).findSome? _).getD [])
    rw [findSome?_middle_none]
    · rfl
    · simp [hr, containsMatchingHostname, hostnamesToStrings]
  · intro st query pre post r hr
    show (((pre ++ r :: post).findSome? _).getD []) = (((pre ++ post).findSome? _).getD [])
    rw [findSome?_middle_none]
    · rfl
    · simp [hr]

/-- C2: when the queried hostname has a binding in the hostname cache
(`serviceMap`, whose keys are the non-empty canonical hostnames recorded by
`onAddOrUpdate`), `GetAddressForHostname` returns that binding, whatever the
ingresses, routes and gateways hold. -/
theorem GetAddressForHostname_serviceMap_first (st : K8sState) (hostname fqdn : GoStr)
    (hkeys : ∀ p ∈ st.serviceMap, p.1 ≠ [])
    (hlook : lookupGo st.serviceMap (canonicalHostname hostname) = some fqdn) :
    GetAddressForHostname st hostname = .ok fqdn := by
  obtain ⟨p, hp, hpk⟩ := lookupGo_key_mem hlook
  have hne : canonicalHostname hostname ≠ [] := hpk ▸ hkeys p hp
  simp [GetAddressForHostname, hne, hlook]

/-- A state binding `mqtt.example.com` in the cache and also matching it by
an ingress rule with a different target. -/
def exPriorityState : K8sState :=
  { serviceMap := [(gs "mqtt.example.com", gs "mosquitto.automation.minilb")]
    ingressLister := some [{ rules := [{ host := gs "mqtt.example.com" }]
                             lbIngress := [{ ip := gs "10.0.0.9", hostname := gs "other.target" }] }]
    httpRouteLister := none, tlsRouteLister := none, grpcRouteLister := none
    gatewayLister := none, endpointSlices := fun _ _ => [] }

/-- C2 witness: on `exPriorityState` the binding's target wins over the
matching ingress rule's address. -/
theorem GetAddressForHostname_serviceMap_first_witness :
    GetAddressForHostname exPriorityState (gs "mqtt.example.com")
      = .ok (gs "mosquitto.automation.minilb") :=
  GetAddressForHostname_serviceMap_first exPriorityState (gs "mqtt.example.com")
    (gs "mosquitto.automation.minilb") (by decide) (by decide)

theorem cons_get_set_perm {α : Type} : ∀ (t : List α) (k : Nat) (hk : k < t.length) (x : α),
    (t.get ⟨k, hk⟩ :: t.set k x).Perm (x :: t)
  | b :: s, 0, _, x => List.Perm.swap x b s
  | b :: s, k + 1, hk, x => by
    have hks : k < s.length := Nat.lt_of_succ_lt_succ hk
    have h0 : (b :: s).get ⟨k + 1, hk⟩ :: (b :: s).set (k + 1) x
        = s.get ⟨k, hks⟩ :: b :: s.set k x := by simp
    rw [h0]
    exact (List.Perm.swap b (s.get ⟨k, hks⟩) (s.set k x)).trans
      (((cons_get_set_perm s k hks x).cons b).trans (List.Perm.swap x b s))

theorem set_set_perm {α : Type} : ∀ (l : List α) (i j : Nat) (hi : i < l.length) (hj : j < l.length),
    ((l.set i (l.get ⟨j, hj⟩)).set j (l.get ⟨i, hi⟩)).Perm l
  | a :: t, 0, 0, _, _ => by simp
  | a :: t, 0, j + 1, hi, hj => by
    have hjs : j < t.length := Nat.lt_of_succ_lt_succ hj
    have : ((a :: t).set 0 ((a :: t).get ⟨j + 1, hj⟩)).set (j + 1) ((a :: t).get ⟨0, hi⟩)
        = t.get ⟨j, hjs⟩ :: t.set j a := by simp
    rw [this]
    exact cons_get_set_perm t j hjs a
  | a :: t, i + 1, 0, hi, hj => by
    have his : i < t.length := Nat.lt_of_succ_lt_succ hi
    have : ((a :: t).set (i + 1) ((a :: t).get ⟨0, hj⟩)).set 0 ((a :: t).get ⟨i + 1, hi⟩)
        = t.get ⟨i, his⟩ :: t.set i a := by simp
    rw [this]
    exact cons_get_set_perm t i his a
  | a :: t, i + 1, j + 1, hi, hj => by
    have his : i < t.length := Nat.lt_of_succ_lt_succ hi
    have hjs : j < t.length := Nat.lt_of_succ_lt_succ hj
    have : ((a :: t).set (i + 1) ((a :: t).get ⟨j + 1, hj⟩)).set (j + 1) ((a :: t).get ⟨i + 1, hi⟩)
        = a :: ((t.set i (t.get ⟨j, hjs⟩)).set j (t.get ⟨i, his⟩)) := by simp
    rw [this]
    exact (set_set_perm t i j his hjs).cons a

theorem listSwap_perm (l : List ARecord) (i j : Nat) : (listSwap l i j).Perm l := by
  unfold listSwap
  split
  · rename_i x y hx hy
    have hi : i < l.length := (List.getElem?_eq_some_iff.mp hx).1
    have hj : j < l.length := (List.getElem?_eq_some_iff.mp hy).1
    have hxv : x = l.get ⟨i, hi⟩ := by
      have := (List.getElem?_eq_some_iff.mp hx).2
      simp [← this]
    have hyv : y = l.get ⟨j, hj⟩ := by
      have := (List.getElem?_eq_some_iff.mp hy).2
      simp [← this]
    rw [hxv, hyv]
    exact set_set_perm l i j hi hj
  · exact List.Perm.refl l

theorem foldl_listSwap_perm (f : Nat → Nat) :
    ∀ (idxs : List Nat) (acc : List ARecord),
      (idxs.foldl (fun a k => listSwap a k (f k)) acc).Perm acc
  | [], acc => List.Perm.refl acc
  | k :: rest, acc => by
    have h1 := foldl_listSwap_perm f rest (listSwap acc k (f k))
    exact h1.trans (listSwap_perm acc k (f k))

/-- C9: `shuffleDNSAnswers` only permutes: the answers after the shuffle are
exactly the answers before, as a multiset, for every random sequence. -/
theorem shuffleDNSAnswers_preserves_answers (rnd : Nat → Nat) (answers : List ARecord) :
    (shuffleDNSAnswers rnd answers).Perm answers ∧
    (shuffleDNSAnswers rnd answers : Multiset ARecord) = (answers : Multiset ARecord) := by
  have h := foldl_listSwap_perm (fun i => rnd i % (i + 1)) (List.range answers.length) answers
  exact ⟨h, Quot.sound h⟩

theorem hostnameMatches_eq_true_iff (candidate query : GoStr) :
    hostnameMatches candidate query = true ↔
      ((canonicalHostname candidate ≠ [] ∧
        canonicalHostname candidate = canonicalHostname query) ∨
       (goStartsWithStarDot (canonicalHostname candidate) = true ∧
        stripStarDot (canonicalHostname candidate) ≠ [] ∧
        (stripStarDot (canonicalHostname candidate)).length < (canonicalHostname query).length ∧
        goHasSuffix (canonicalHostname query) (stripStarDot (canonicalHostname candidate)) = true)) := by
  simp only [hostnameMatches]
  set c := canonicalHostname candidate with hc
  set q := canonicalHostname query with hq
  by_cases h1 : c = [] ∨ q = []
  · rw [if_pos h1]
    simp only [Bool.false_eq_true, false_iff]
    rintro (⟨hcne, hceq⟩ | ⟨hsd, hsne, hlen, hsuf⟩)
    · rcases h1 with h | h
      · exact hcne h
      · exact hcne (hceq.trans h)
    · rcases h1 with h | h
      · rw [h] at hsd
        exact absurd hsd (by decide)
      · rw [h] at hlen
        exact Nat.not_lt_zero _ hlen
  · rw [if_neg h1]
    push_neg at h1
    by_cases h2 : c = q
    · rw [if_pos h2]
      simp only [true_iff]
      exact Or.inl ⟨h1.1, h2⟩
    · rw [if_neg h2]
      by_cases h3 : goStartsWithStarDot c = true
      · rw [if_pos h3]
        simp only [Bool.and_eq_true, decide_eq_true_eq]
        constructor
        · rintro ⟨⟨hsne, hlen⟩, hsuf⟩
          exact Or.inr ⟨h3, hsne, hlen, hsuf⟩
        · rintro (⟨_, hceq⟩ | ⟨_, hsne, hlen, hsuf⟩)
          · exact absurd hceq h2
          · exact ⟨⟨hsne, hlen⟩, hsuf⟩
      · rw [if_neg h3]
        simp only [Bool.false_eq_true, false_iff]
        rintro (⟨_, hceq⟩ | ⟨hsd, _⟩)
        · exact h2 hceq
        · exact h3 hsd

/-- C1 amended: the claimed characterization of `hostnameMatches` holds once
the exact-equality disjunct also requires the canonical forms to be non-empty
(the code refuses empty canonical hostnames before comparing); the spec's
four concrete examples hold as stated. -/
theorem hostnameMatches_spec :
    (∀ candidate query : GoStr,
      hostnameMatches candidate query = true ↔
        ((canonicalHostname candidate ≠ [] ∧
          canonicalHostname candidate = canonicalHostname query) ∨
         (goStartsWithStarDot (canonicalHostname candidate) = true ∧
          stripStarDot (canonicalHostname candidate) ≠ [] ∧
          (stripStarDot (canonicalHostname candidate)).length
            < (canonicalHostname query).length ∧
          goHasSuffix (canonicalHostname query)
            (stripStarDot (canonicalHostname candidate)) = true)))
  ∧ hostnameMatches (gs "*.example.com") (gs "a.example.com") = true
  ∧ hostnameMatches (gs "*.example.com") (gs "a.b.example.com") = true
  ∧ hostnameMatches (gs "*.example.com") (gs "example.com") = false
  ∧ hostnameMatches (gs "example.com") (gs "a.example.com") = false :=
  ⟨hostnameMatches_eq_true_iff, by decide, by decide, by decide, by decide⟩

/-- C1 counterexample: for candidate `"."` and query `"."` both canonical
forms are empty and exactly equal — the claim's condition holds (first
disjunct) — yet `hostnameMatches` returns false, so the claimed iff fails
without a non-emptiness guard. -/
theorem hostnameMatches_empty_equal_cex :
    hostnameMatches (gs ".") (gs ".") = false ∧
    (canonicalHostname (gs ".") = canonicalHostname (gs ".") ∨
     (goStartsWithStarDot (canonicalHostname (gs ".")) = true ∧
      stripStarDot (canonicalHostname (gs ".")) ≠ [] ∧
      (stripStarDot (canonicalHostname (gs "."))).length
        < (canonicalHostname (gs ".")).length ∧
      goHasSuffix (canonicalHostname (gs "."))
        (stripStarDot (canonicalHostname (gs "."))) = true)) := by decide

/-- C8 amended: a wildcard candidate matches a query iff the canonical forms
are equal outright, or the remainder after `*.` is non-empty, the query is
strictly longer and merely ends with the remainder — no label boundary (no
leading dot) is required before the remainder. -/
theorem hostnameMatches_wildcard_plain_suffix (candidate query : GoStr)
    (hw : goStartsWithStarDot (canonicalHostname candidate) = true) :
    hostnameMatches candidate query = true ↔
      (canonicalHostname candidate = canonicalHostname query ∨
       (stripStarDot (canonicalHostname candidate) ≠ [] ∧
        (stripStarDot (canonicalHostname candidate)).length
          < (canonicalHostname query).length ∧
        goHasSuffix (canonicalHostname query)
          (stripStarDot (canonicalHostname candidate)) = true)) := by
  rw [hostnameMatches_eq_true_iff]
  have hcne : canonicalHostname candidate ≠ [] := by
    intro h
    rw [h] at hw
    exact absurd hw (by decide)
  constructor
  · rintro (⟨_, hceq⟩ | ⟨_, rest⟩)
    · exact Or.inl hceq
    · exact Or.inr rest
  · rintro (hceq | rest)
    · exact Or.inl ⟨hcne, hceq⟩
    · exact Or.inr ⟨hw, rest⟩

/-- C8 witness: the amended rule evaluated at `*.example.com` against
`badexample.com`. -/
theorem hostnameMatches_wildcard_plain_suffix_witness :
    hostnameMatches (gs "*.example.com") (gs "badexample.com") = true ↔
      (canonicalHostname (gs "*.example.com") = canonicalHostname (gs "badexample.com") ∨
       (stripStarDot (canonicalHostname (gs "*.example.com")) ≠ [] ∧
        (stripStarDot (canonicalHostname (gs "*.example.com"))).length
          < (canonicalHostname (gs "badexample.com")).length ∧
        goHasSuffix (canonicalHostname (gs "badexample.com"))
          (stripStarDot (canonicalHostname (gs "*.example.com"))) = true)) :=
  hostnameMatches_wildcard_plain_suffix (gs "*.example.com") (gs "badexample.com") (by decide)

/-- An ingress whose only rule is the wildcard host `*.example.com`. -/
def exWildcardIngressState : K8sState :=
  { serviceMap := []
    ingressLister := some [{ rules := [{ host := gs "*.example.com" }]
                             lbIngress := [{ ip := [], hostname := gs "gw.example.net" }] }]
    httpRouteLister := none, tlsRouteLister := none, grpcRouteLister := none
    gatewayLister := none, endpointSlices := fun _ _ => [] }

/-- C8 counterexample: the query `badexample.com` does not end at a label
boundary before `example.com` (it does not end with `.example.com`), yet the
ingress rule `*.example.com` matches it and resolution returns the ingress
address. -/
theorem ingress_wildcard_no_label_boundary_cex :
    GetAddressForHostname exWildcardIngressState (gs "badexample.com")
      = .ok (gs "gw.example.net") ∧
    goHasSuffix (canonicalHostname (gs "badexample.com"))
      (46 :: stripStarDot (canonicalHostname (gs "*.example.com"))) = false :=
  ⟨by rfl, by decide⟩

/-- The configuration used by the concrete handler evaluations. -/
def exCfg : Config := { domain := gs "minilb", ttl := 5 }

/-- A state with no bindings, no listers and no endpoint slices. -/
def exEmptyState : K8sState :=
  { serviceMap := [], ingressLister := none, httpRouteLister := none
    tlsRouteLister := none, grpcRouteLister := none, gatewayLister := none
    endpointSlices := fun _ _ => [] }

/-- C7: a message whose question section is empty makes `handleDNSRequest`
index `r.Question[0]` out of range and panic (modelled as `none`) instead of
replying; every message that does carry a question is answered with an
authoritative reply, whatever state, configuration and query it carries. -/
theorem handleDNSRequest_empty_question_panics :
    handleDNSRequest exCfg exEmptyState (fun _ => 0)
      { question := [], answer := [], authoritative := false } = none
  ∧ (∀ (cfg : Config) (st : K8sState) (rnd : Nat → Nat) (r : DNSMsg)
       (q : DNSQuestion) (qs : List DNSQuestion),
      r.question = q :: qs →
      ∃ m, handleDNSRequest cfg st rnd r = some m ∧ m.authoritative = true) := by
  refine ⟨rfl, ?_⟩
  intro cfg st rnd r q qs hq
  obtain ⟨rq, ra, rauth⟩ := r
  simp only at hq
  subst hq
  show ∃ m, handleDNSRequest cfg st rnd ⟨q :: qs, ra, rauth⟩ = some m ∧ m.authoritative = true
  unfold handleDNSRequest
  dsimp only
  repeat' split
  all_goals exact ⟨_, rfl, rfl⟩

theorem goToLower_idem (r : Nat) : goToLower (goToLower r) = goToLower r := by
  unfold goToLower
  split_ifs <;> omega

theorem goIsSpace_goToLower (r : Nat) : goIsSpace (goToLower r) = goIsSpace r := by
  unfold goToLower goIsSpace
  split_ifs with h
  · rw [decide_eq_decide]
    omega
  · rfl

theorem goToLower_eq_dot {r : Nat} : goToLower r = 46 ↔ r = 46 := by
  unfold goToLower
  split_ifs <;> omega

theorem goToLowerStr_idem (s : GoStr) : goToLowerStr (goToLowerStr s) = goToLowerStr s := by
  unfold goToLowerStr
  rw [List.map_map]
  have h : goToLower ∘ goToLower = goToLower := funext goToLower_idem
  rw [h]

theorem goIsSpace_comp : goIsSpace ∘ goToLower = goIsSpace := funext goIsSpace_goToLower

theorem trimLeftSpace_map (s : GoStr) :
    trimLeftSpace (goToLowerStr s) = goToLowerStr (trimLeftSpace s) := by
  unfold trimLeftSpace goToLowerStr
  rw [List.dropWhile_map, goIsSpace_comp]

theorem trimRightSpace_map (s : GoStr) :
    trimRightSpace (goToLowerStr s) = goToLowerStr (trimRightSpace s) := by
  unfold trimRightSpace goToLowerStr
  rw [← List.map_reverse, List.dropWhile_map, goIsSpace_comp, ← List.map_reverse]

theorem goTrimSpace_map (s : GoStr) :
    goTrimSpace (goToLowerStr s) = goToLowerStr (goTrimSpace s) := by
  unfold goTrimSpace
  rw [trimLeftSpace_map, trimRightSpace_map]

theorem singleton_isSuffixOf_iff {a : Nat} {s : GoStr} :
    List.isSuffixOf [a] s = true ↔ s.getLast? = some a := by
  rw [List.isSuffixOf_iff_suffix]
  constructor
  · rintro ⟨t, rfl⟩
    exact List.getLast?_concat t
  · intro h
    obtain ⟨ys, rfl⟩ := List.getLast?_eq_some_iff.mp h
    exact ⟨ys, rfl⟩

theorem goTrimSuffix_dot_of_ne {s : GoStr} (h : s.getLast? ≠ some 46) :
    goTrimSuffix s [46] = s := by
  unfold goTrimSuffix
  rw [if_neg]
  intro hs
  exact h (singleton_isSuffixOf_iff.mp hs)

theorem goTrimSuffix_dot_map (s : GoStr) :
    goTrimSuffix (goToLowerStr s) [46] = goToLowerStr (goTrimSuffix s [46]) := by
  unfold goTrimSuffix
  by_cases h : List.isSuffixOf [46] s = true
  · have hm : List.isSuffixOf [46] (goToLowerStr s) = true := by
      rw [singleton_isSuffixOf_iff] at h ⊢
      unfold goToLowerStr
      rw [List.getLast?_map, h]
      rfl
    rw [if_pos hm, if_pos h]
    unfold goToLowerStr
    rw [List.length_map, ← List.map_take]
  · have hm : ¬ List.isSuffixOf [46] (goToLowerStr s) = true := by
      rw [singleton_isSuffixOf_iff] at h ⊢
      unfold goToLowerStr
      rw [List.getLast?_map]
      intro hc
      cases hl : s.getLast? with
      | none => rw [hl] at hc; simp at hc
      | some c =>
        rw [hl] at hc
        simp only [Option.map_some', Option.some_inj] at hc
        exact h (by rw [hl, goToLower_eq_dot.mp hc])
    rw [if_neg hm, if_neg h]

theorem head?_eq_of_starts {t v : GoStr} {c : Nat} (h : t <+: v) (hh : t.head? = some c) :
    v.head? = some c := by
  obtain ⟨r, rfl⟩ := h
  simp [List.head?_append, hh]

theorem trimLeftSpace_head {s : GoStr} {c : Nat} (h : (trimLeftSpace s).head? = some c) :
    goIsSpace c = false := by
  have hw := List.head?_dropWhile_not goIsSpace s
  unfold trimLeftSpace at h
  rw [h] at hw
  exact hw

theorem trimLeftSpace_eq_self {s : GoStr} (h : ∀ c, s.head? = some c → goIsSpace c = false) :
    trimLeftSpace s = s := by
  unfold trimLeftSpace
  cases s with
  | nil => rfl
  | cons a t => exact List.dropWhile_cons_of_neg (by simp [h a rfl])

theorem trimRightSpace_eq_self {s : GoStr} (h : ∀ c, s.getLast? = some c → goIsSpace c = false) :
    trimRightSpace s = s := by
  unfold trimRightSpace
  cases hr : s.reverse with
  | nil => rw [List.dropWhile_nil, ← hr, List.reverse_reverse]
  | cons a t =>
    have ha : s.getLast? = some a := by rw [← List.head?_reverse, hr]; rfl
    rw [List.dropWhile_cons_of_neg (by simp [h a ha]), ← hr, List.reverse_reverse]

theorem trimRightSpace_isPre (s : GoStr) : trimRightSpace s <+: s := by
  unfold trimRightSpace
  have h : s.reverse.dropWhile goIsSpace <:+ s.reverse := List.dropWhile_suffix _
  have h2 := List.reverse_prefix.mpr h
  rwa [List.reverse_reverse] at h2

theorem canonical_head {h : GoStr} {c : Nat} (hc : (canonicalHostname h).head? = some c) :
    goIsSpace c = false := by
  unfold canonicalHostname goToLowerStr at hc
  rw [List.head?_map] at hc
  cases ht : (goTrimSuffix (goTrimSpace h) [46]).head? with
  | none => rw [ht] at hc; simp at hc
  | some c0 =>
    rw [ht] at hc
    simp only [Option.map_some', Option.some_inj] at hc
    subst hc
    rw [goIsSpace_goToLower]
    have hpre : goTrimSuffix (goTrimSpace h) [46] <+: goTrimSpace h := by
      unfold goTrimSuffix
      split
      · exact List.take_prefix _ _
      · exact List.prefix_refl _
    have hu : (goTrimSpace h).head? = some c0 := head?_eq_of_starts hpre ht
    have hp2 : goTrimSpace h <+: trimLeftSpace h := trimRightSpace_isPre _
    have hl : (trimLeftSpace h).head? = some c0 := head?_eq_of_starts hp2 hu
    exact trimLeftSpace_head hl

theorem canonical_lowered (h : GoStr) :
    goToLowerStr (canonicalHostname h) = canonicalHostname h := by
  unfold canonicalHostname
  exact goToLowerStr_idem _

theorem canonical_idem_of_clean {h : GoStr}
    (hdot : (canonicalHostname h).getLast? ≠ some 46)
    (hsp : ∀ c, (canonicalHostname h).getLast? = some c → goIsSpace c = false) :
    canonicalHostname (canonicalHostname h) = canonicalHostname h := by
  have h1 : trimLeftSpace (canonicalHostname h) = canonicalHostname h :=
    trimLeftSpace_eq_self (fun c hc => canonical_head hc)
  have h2 : trimRightSpace (canonicalHostname h) = canonicalHostname h :=
    trimRightSpace_eq_self hsp
  have h3 : goTrimSuffix (canonicalHostname h) [46] = canonicalHostname h :=
    goTrimSuffix_dot_of_ne hdot
  show goToLowerStr (goTrimSuffix (goTrimSpace (canonicalHostname h)) [46]) = _
  unfold goTrimSpace
  rw [h1, h2, h3, canonical_lowered]

theorem canonical_map_goToLower (h : GoStr) :
    canonicalHostname (goToLowerStr h) = canonicalHostname h := by
  show goToLowerStr (goTrimSuffix (goTrimSpace (goToLowerStr h)) [46]) = _
  rw [goTrimSpace_map, goTrimSuffix_dot_map]
  show goToLowerStr (goToLowerStr (goTrimSuffix (goTrimSpace h) [46])) = _
  rw [goToLowerStr_idem]
  rfl

theorem canonical_append_dot {g : GoStr} (htrim : goTrimSpace g = g)
    (hdot : g.getLast? ≠ some 46) :
    canonicalHostname (g ++ [46]) = canonicalHostname g := by
  cases g with
  | nil => decide
  | cons a t =>
    have heq : trimRightSpace (trimLeftSpace (a :: t)) = a :: t := htrim
    have l1 : (trimRightSpace (trimLeftSpace (a :: t))).length ≤ (trimLeftSpace (a :: t)).length :=
      (trimRightSpace_isPre _).length_le
    rw [heq] at l1
    have hpl : trimLeftSpace (a :: t) <:+ (a :: t) := List.dropWhile_suffix _
    have hL : trimLeftSpace (a :: t) = a :: t :=
      hpl.eq_of_length (Nat.le_antisymm hpl.length_le l1)
    have hR : trimRightSpace (a :: t) = a :: t := by rwa [hL] at heq
    have hhead : goIsSpace a = false := by
      have hh : (trimLeftSpace (a :: t)).head? = some a := by rw [hL]; rfl
      exact trimLeftSpace_head hh
    have t1 : trimLeftSpace ((a :: t) ++ [46]) = (a :: t) ++ [46] := by
      unfold trimLeftSpace
      simp only [List.cons_append]
      exact List.dropWhile_cons_of_neg (by simp [hhead])
    have t2 : trimRightSpace ((a :: t) ++ [46]) = (a :: t) ++ [46] :=
      trimRightSpace_eq_self (fun c hc => by
        rw [List.getLast?_concat] at hc
        obtain rfl : c = 46 := (Option.some_inj.mp hc).symm
        decide)
    have t3 : goTrimSuffix ((a :: t) ++ [46]) [46] = a :: t := by
      unfold goTrimSuffix
      rw [if_pos (singleton_isSuffixOf_iff.mpr (List.getLast?_concat _))]
      have hlen : ((a :: t) ++ [46]).length - [46].length = (a :: t).length := by simp
      rw [hlen, List.take_left]
    show goToLowerStr (goTrimSuffix (goTrimSpace ((a :: t) ++ [46])) [46]) = _
    unfold goTrimSpace
    rw [t1, t2, t3]
    show goToLowerStr (a :: t) = goToLowerStr (goTrimSuffix (goTrimSpace (a :: t)) [46])
    rw [htrim, goTrimSuffix_dot_of_ne hdot]

/-- C6 counterexample: `canonicalHostname` is not idempotent: canonicalizing
`"a.."` yields `"a."`, and canonicalizing that again yields `"a"`. -/
theorem canonicalHostname_not_idempotent_cex :
    canonicalHostname (canonicalHostname (gs "a..")) ≠ canonicalHostname (gs "a..") := by
  decide

/-- C6 amended: canonicalization is idempotent on every hostname whose
canonical form does not end in a dot or a space character; any two
case-variants of the same host canonicalize identically; and appending one
trailing dot to an already-trimmed host not ending in a dot leaves the
canonical form unchanged. -/
theorem canonicalHostname_idempotent_amended :
    (∀ h : GoStr,
      (canonicalHostname h).getLast? ≠ some 46 →
      (∀ c, (canonicalHostname h).getLast? = some c → goIsSpace c = false) →
      canonicalHostname (canonicalHostname h) = canonicalHostname h)
  ∧ (∀ h₁ h₂ : GoStr, goToLowerStr h₁ = goToLowerStr h₂ →
      canonicalHostname h₁ = canonicalHostname h₂)
  ∧ (∀ g : GoStr, goTrimSpace g = g → g.getLast? ≠ some 46 →
      canonicalHostname (g ++ [46]) = canonicalHostname g) := by
  refine ⟨fun h hdot hsp => canonical_idem_of_clean hdot hsp,
    fun h₁ h₂ hc => ?_, fun g a b => canonical_append_dot a b⟩
  rw [← canonical_map_goToLower h₁, ← canonical_map_goToLower h₂, hc]
